import Mathlib

/-!
Verification development for the csv_to_goodnote converter.

The program (src/csv_to_goodnote.py) turns a quiz table
(question, five choices, answer, subject, link) into a two-column
flashcard table (Front, Back).  The core is four functions:
`_clean` (text normalisation), `normalize_columns` (column
resolution), `make_front_back` (card formatting) and `convert_df`
(table conversion).  Below, each of these is embedded shallowly:
strings are Lean `String`s, a pandas `DataFrame` is a list of column
names plus rows of cell strings, and the pandas operations used by
the source (positional column assignment, `rename`, column insertion
and label-based selection, which returns every column bearing a
requested label) are spelled out on that representation.
-/

/-- The set of characters Python's `str.strip()` removes: all Unicode
whitespace (`Py_UNICODE_ISSPACE`), i.e. U+0009–U+000D, U+001C–U+001F,
space, U+0085, U+00A0, U+1680, U+2000–U+200A, U+2028, U+2029, U+202F,
U+205F and U+3000. -/
def pyIsSpace (c : Char) : Bool :=
  (9 ≤ c.val && c.val ≤ 13) || (28 ≤ c.val && c.val ≤ 32) ||
  c.val == 0x85 || c.val == 0xA0 || c.val == 0x1680 ||
  (0x2000 ≤ c.val && c.val ≤ 0x200A) ||
  c.val == 0x2028 || c.val == 0x2029 || c.val == 0x202F ||
  c.val == 0x205F || c.val == 0x3000

/-- Python `s.replace(c, "")`: delete every occurrence of the character `c`. -/
def removeAllChar (c : Char) (s : String) : String :=
  String.mk (s.data.filter (fun x => x != c))

/-- Both-ends trim of a character list, dropping `pyIsSpace` characters. -/
def pyTrimList (l : List Char) : List Char :=
  ((l.dropWhile pyIsSpace).reverse.dropWhile pyIsSpace).reverse

/-- Python `s.strip()` with no arguments: trim Unicode whitespace from
both ends. -/
def pyStrip (s : String) : String :=
  String.mk (pyTrimList s.data)

/-- `_clean` from the source:
`if s is None: return ""` then
`str(s).replace("﻿", "").strip().replace("　", "")`
(remove all U+FEFF, strip, then remove all U+3000). -/
def _clean (s : Option String) : String :=
  match s with
  | none => ""
  | some t => removeAllChar '　' (pyStrip (removeAllChar '﻿' t))

/-- `_clean` applied to a header cell, which is always a string. -/
def cleanStr (s : String) : String := _clean (some s)

/-- `REQUIRED` from the source: the nine canonical column names in
their fixed order. -/
def REQUIRED : List String :=
  ["問題文","選択肢1","選択肢2","選択肢3","選択肢4","選択肢5","正解","科目分類","リンクURL"]

/-- `ALIAS` from the source: for each canonical column name, the
ordered list of accepted alternate header names. -/
def ALIAS : List (String × List String) :=
  [("問題文",  ["設問", "問題", "本文"]),
   ("選択肢1", ["選択肢Ａ","選択肢a","A","ａ"]),
   ("選択肢2", ["選択肢Ｂ","選択肢b","B","ｂ"]),
   ("選択肢3", ["選択肢Ｃ","選択肢c","C","ｃ"]),
   ("選択肢4", ["選択肢Ｄ","選択肢d","D","ｄ"]),
   ("選択肢5", ["選択肢Ｅ","選択肢e","E","ｅ"]),
   ("正解",    ["解答","答え","ans","answer"]),
   ("科目分類", ["分類","科目","カテゴリ","カテゴリー"]),
   ("リンクURL", ["画像URL","画像リンク","リンク","画像Link"])]

/-- A pandas `DataFrame` of strings: a list of column names and a list
of rows, the i-th cell of a row belonging to the i-th column. -/
structure Df where
  cols : List String
  rows : List (List String)
deriving DecidableEq, Repr

/-- pandas `df.rename(columns={old: new})`: every column labelled
`old` is relabelled `new`. -/
def renameCol (cols : List String) (old new : String) : List String :=
  cols.map (fun x => if x = old then new else x)

/-- One iteration of the alias loop in `normalize_columns`: the state
is the current column list plus the membership set `colset` (which the
source never shrinks, so stale pre-rename names remain in it).  If the
canonical name is already in `colset` nothing happens; otherwise the
first alias present in `colset` is renamed to the canonical name. -/
def aliasStep (st : List String × List String) (entry : String × List String) :
    List String × List String :=
  if st.2.contains entry.1 then st
  else
    match entry.2.find? (fun c => st.2.contains c) with
    | some c => (renameCol st.1 c entry.1, entry.1 :: st.2)
    | none => st

/-- The alias-resolution loop of `normalize_columns` on the column
list: fold `aliasStep` over the `ALIAS` table, starting from
`colset = set(df.columns)`. -/
def aliasResolveCols (cols : List String) : List String :=
  (ALIAS.foldl aliasStep (cols, cols)).1

/-- The alias-resolution loop of `normalize_columns` (rows untouched). -/
def aliasResolve (df : Df) : Df :=
  ⟨aliasResolveCols df.cols, df.rows⟩

/-- `df.columns = [_clean(c) for c in df.columns]`. -/
def cleanHeader (df : Df) : Df :=
  ⟨df.cols.map cleanStr, df.rows⟩

/-- One iteration of the back-fill loop: `if c not in df.columns:
df[c] = ""` appends a new column whose value is `""` in every row. -/
def backfillStep (df : Df) (c : String) : Df :=
  if df.cols.contains c then df
  else ⟨df.cols ++ [c], df.rows.map (fun r => r ++ [""])⟩

/-- The back-fill loop `for c in REQUIRED: ...` of `normalize_columns`. -/
def backfill (df : Df) : Df :=
  REQUIRED.foldl backfillStep df

/-- pandas label-based selection `df[names]`: for each requested name,
in request order, every column bearing that label is returned (so
duplicate labels are all kept). -/
def selectCols (df : Df) (names : List String) : Df :=
  ⟨names.flatMap (fun r => df.cols.filter (fun x => x == r)),
   df.rows.map (fun row =>
     names.flatMap (fun r =>
       ((df.cols.zip row).filter (fun p => p.1 == r)).map Prod.snd))⟩

/-- `normalize_columns` from the source: clean the header, resolve
aliases, back-fill missing required columns with `""`, and select the
`REQUIRED` labels. -/
def normalize_columns (df : Df) : Df :=
  selectCols (backfill (aliasResolve (cleanHeader df))) REQUIRED

/-- pandas `row.get(label, "")` on a `Series` whose index is `cols`:
the value of the first column labelled `label`, or `""` if absent. -/
def rowGet (cols vals : List String) (label : String) : String :=
  match (cols.zip vals).find? (fun p => p.1 == label) with
  | some p => p.2
  | none => ""

/-- The label table of `make_front_back`: letters when `numbering ==
"ABC"`, digits otherwise. -/
def labelsFor (numbering : String) : List String :=
  if numbering = "ABC" then ["A", "B", "C", "D", "E"]
  else ["1", "2", "3", "4", "5"]

/-- Python `sep.join(parts)`. -/
def pyJoin (sep : String) : List String → String
  | [] => ""
  | [x] => x
  | x :: xs => x ++ sep ++ pyJoin sep xs

/-- The choice-line comprehension of `make_front_back`:
`[f"{labels[i]}. {txt}" for i, txt in enumerate(choices) if txt]`,
keeping each non-empty choice labelled by its original position. -/
def choiceLines (choices labels : List String) : List String :=
  (choices.enum.filter (fun p => p.2 != "")).map
    (fun p => labels.getD p.1 "" ++ ". " ++ p.2)

/-- `make_front_back` from the source, taking the row as the column
list of its table plus the row's cell values. -/
def make_front_back (cols vals : List String) (numbering : String)
    (add_labels add_meta : Bool) : String × String :=
  let q := _clean (some (rowGet cols vals "問題文"))
  let choices := [_clean (some (rowGet cols vals "選択肢1")),
                  _clean (some (rowGet cols vals "選択肢2")),
                  _clean (some (rowGet cols vals "選択肢3")),
                  _clean (some (rowGet cols vals "選択肢4")),
                  _clean (some (rowGet cols vals "選択肢5"))]
  let choice_lines := choiceLines choices (labelsFor numbering)
  let front := if choice_lines.isEmpty then q
               else q ++ "\n\n" ++ pyJoin "\n" choice_lines
  let ans := _clean (some (rowGet cols vals "正解"))
  let back := if add_labels then "正解: " ++ ans else ans
  let back :=
    if add_meta then
      let subject := _clean (some (rowGet cols vals "科目分類"))
      let link := _clean (some (rowGet cols vals "リンクURL"))
      let extra := pyJoin "\n" ([subject, link].filter (fun s => s != ""))
      if extra = "" then back else back ++ "\n\n" ++ extra
    else back
  (front, back)

/-- The choice-line comprehension with the label lookup made explicit:
`labels[i]` is an `IndexError` when `i` is out of bounds, so the
lookup returns `Except`.  Used to show the source indexing is always
in bounds. -/
def choiceLinesE (choices labels : List String) : Except String (List String) :=
  (choices.enum.filter (fun p => p.2 != "")).mapM
    (fun p =>
      match labels.get? p.1 with
      | some lab => Except.ok (lab ++ ". " ++ p.2)
      | none => Except.error "IndexError")

/-- `make_front_back` with the fallible label indexing made explicit:
the only step of the source that can raise is the `labels[i]` lookup,
so the whole formatter fails exactly when `choiceLinesE` does. -/
def makeFrontBackE (cols vals : List String) (numbering : String)
    (add_labels add_meta : Bool) : Except String (String × String) :=
  let q := _clean (some (rowGet cols vals "問題文"))
  let choices := [_clean (some (rowGet cols vals "選択肢1")),
                  _clean (some (rowGet cols vals "選択肢2")),
                  _clean (some (rowGet cols vals "選択肢3")),
                  _clean (some (rowGet cols vals "選択肢4")),
                  _clean (some (rowGet cols vals "選択肢5"))]
  match choiceLinesE choices (labelsFor numbering) with
  | Except.error e => Except.error e
  | Except.ok choice_lines =>
    let front := if choice_lines.isEmpty then q
                 else q ++ "\n\n" ++ pyJoin "\n" choice_lines
    let ans := _clean (some (rowGet cols vals "正解"))
    let back := if add_labels then "正解: " ++ ans else ans
    let back :=
      if add_meta then
        let subject := _clean (some (rowGet cols vals "科目分類"))
        let link := _clean (some (rowGet cols vals "リンクURL"))
        let extra := pyJoin "\n" ([subject, link].filter (fun s => s != ""))
        if extra = "" then back else back ++ "\n\n" ++ extra
      else back
    Except.ok (front, back)

/-- `convert_df` from the source: iterate over the rows accumulating
the `fronts` and `backs` lists, then build the two-column output. -/
def convert_df (df : Df) (numbering : String) (add_labels add_meta : Bool) : Df :=
  let fb := df.rows.foldl
    (fun (acc : List String × List String) row =>
      let p := make_front_back df.cols row numbering add_labels add_meta
      (acc.1 ++ [p.1], acc.2 ++ [p.2]))
    ([], [])
  ⟨["Front", "Back"], (fb.1.zip fb.2).map (fun p => [p.1, p.2])⟩

/-!
## Reference definitions from the spec's words (for the C2 refinement claim)
-/

/-- ASCII whitespace, the set the spec's words name for the edge trim. -/
def asciiIsSpace (c : Char) : Bool :=
  c == ' ' || c == '\t' || c == '\n' || c == '\r' || c == '\x0b' || c == '\x0c'

/-- Both-ends trim of ASCII whitespace only. -/
def asciiTrim (s : String) : String :=
  String.mk (((s.data.dropWhile asciiIsSpace).reverse.dropWhile asciiIsSpace).reverse)

/-- The reference normalizer following the spec's words literally:
null/missing to `""`, remove every U+FEFF, remove every U+3000, and
trim ASCII leading/trailing whitespace (and nothing else). -/
def cleanSpecAscii (s : Option String) : String :=
  match s with
  | none => ""
  | some t => asciiTrim (removeAllChar '　' (removeAllChar '﻿' t))

/-- The reference normalizer with the trim set corrected to Python's
Unicode whitespace, stated with the full-width-space removal before
the trim (the opposite order from the source's `_clean`). -/
def cleanSpecUnicode (s : Option String) : String :=
  match s with
  | none => ""
  | some t => pyStrip (removeAllChar '　' (removeAllChar '﻿' t))

/-!
## Helper lemmas
-/

/-- `filter` commutes with `dropWhile` when every character the filter
removes is one the trim would drop anyway. -/
theorem filter_dropWhile_comm {p ws : Char → Bool}
    (h : ∀ x, p x = false → ws x = true) :
    ∀ l : List Char, (l.dropWhile ws).filter p = (l.filter p).dropWhile ws := by
  intro l
  induction l with
  | nil => rfl
  | cons x xs ih =>
    by_cases hw : ws x = true
    · rw [List.dropWhile_cons, if_pos hw, List.filter_cons]
      by_cases hp : p x = true
      · rw [if_pos hp, List.dropWhile_cons, if_pos hw, ih]
      · rw [if_neg hp, ih]
    · have hp : p x = true := by
        by_contra hp
        exact hw (h x (Bool.eq_false_iff.mpr hp))
      rw [List.dropWhile_cons, if_neg hw, List.filter_cons, if_pos hp,
        List.dropWhile_cons, if_neg hw]

/-- `filter` commutes with the both-ends Unicode trim when every
character the filter removes is Unicode whitespace. -/
theorem pyTrimList_filter {p : Char → Bool}
    (h : ∀ x, p x = false → pyIsSpace x = true) (l : List Char) :
    (pyTrimList l).filter p = pyTrimList (l.filter p) := by
  unfold pyTrimList
  rw [List.filter_reverse, filter_dropWhile_comm h, List.filter_reverse,
    filter_dropWhile_comm h]

/-!
## Claim theorems
-/

/-- Claim C1: for the record with question "Capital of Japan?",
choices "Tokyo"/"Osaka" (3–5 empty), answer "Tokyo", subject
"Geography", empty link, under digit numbering ("123"), answer label
on and metadata on, the formatter returns Front
"Capital of Japan?\n\n1. Tokyo\n2. Osaka" and Back
"正解: Tokyo\n\nGeography". -/
theorem C1_end_to_end_scenario :
    make_front_back REQUIRED
      ["Capital of Japan?","Tokyo","Osaka","","","","Tokyo","Geography",""]
      "123" true true
      = ("Capital of Japan?\n\n1. Tokyo\n2. Osaka", "正解: Tokyo\n\nGeography") := by
  decide

/-- Claim C2, counterexample: the source's `_clean` is not the spec's
reference definition with an ASCII-only edge trim.  Python's `strip()`
trims all Unicode whitespace: at input "a " (non-breaking space)
the code yields "a" while the ASCII-trim reference keeps the U+00A0. -/
theorem C2_ascii_trim_counterexample :
    _clean (some "a ") ≠ cleanSpecAscii (some "a ") := by
  decide

/-- Claim C2, amended: for every string-or-null value, `_clean` equals
the reference definition provided the edge trim removes Python's
Unicode whitespace set (not ASCII whitespace only); with that trim the
relative order of the trim and the global full-width-space removal is
immaterial (the reference here trims after the U+3000 removal, the
source trims before it). -/
theorem C2_clean_matches_unicode_reference :
    ∀ v : Option String, _clean v = cleanSpecUnicode v := by
  intro v
  cases v with
  | none => rfl
  | some t =>
    show removeAllChar '　' (pyStrip (removeAllChar '﻿' t)) = _
    unfold cleanSpecUnicode removeAllChar pyStrip
    refine congrArg String.mk ?_
    exact pyTrimList_filter (p := fun x => x != '　')
      (fun x hx => by
        have : x = '　' := by simpa using hx
        subst this; decide) _

/-- Claim C5: empty-valued choices are dropped but surviving later
choices keep the label of their original position: with choice1 "",
choice2 "B", choice3 "", choice4 "D", choice5 "" and letter numbering
the choice lines are exactly ["B. B", "D. D"], and Front is the
question followed by those lines. -/
theorem C5_choice_labels_keep_original_position :
    choiceLines [_clean (some ""), _clean (some "B"), _clean (some ""),
        _clean (some "D"), _clean (some "")] (labelsFor "ABC") = ["B. B", "D. D"]
    ∧ (make_front_back REQUIRED ["Q","","B","","D","","","",""] "ABC" true false).1
      = "Q\n\nB. B\nD. D" := by
  decide

/-!
## Column-resolver lemmas
-/

theorem renameCol_length (cols : List String) (old new : String) :
    (renameCol cols old new).length = cols.length :=
  List.length_map _ _

theorem mem_renameCol {cols : List String} {old new y : String}
    (h : y ∈ renameCol cols old new) : y ∈ cols ∨ y = new := by
  obtain ⟨x, hx, hxy⟩ := List.mem_map.mp h
  by_cases hxo : x = old
  · right; rw [← hxy, if_pos hxo]
  · left; rw [← hxy, if_neg hxo]; exact hx

theorem renameCol_of_not_mem {cols : List String} {old : String} (new : String)
    (h : old ∉ cols) : renameCol cols old new = cols := by
  unfold renameCol
  have hc : ∀ a ∈ cols, (if a = old then new else a) = id a := by
    intro a ha
    have hne : a ≠ old := fun he => h (he ▸ ha)
    simp [hne]
  rw [List.map_congr_left hc, List.map_id]

theorem renameCol_nodup {cols : List String} {old new : String}
    (hn : cols.Nodup) (hnew : new ∉ cols) : (renameCol cols old new).Nodup := by
  induction cols with
  | nil => exact List.nodup_nil
  | cons x xs ih =>
    rw [List.nodup_cons] at hn
    have hnew' : new ∉ xs := fun h => hnew (List.mem_cons_of_mem _ h)
    by_cases hxo : x = old
    · show ((if x = old then new else x) :: renameCol xs old new).Nodup
      rw [if_pos hxo, renameCol_of_not_mem new (hxo ▸ hn.1)]
      exact List.nodup_cons.mpr ⟨hnew', hn.2⟩
    · show ((if x = old then new else x) :: renameCol xs old new).Nodup
      rw [if_neg hxo]
      refine List.nodup_cons.mpr ⟨?_, ih hn.2 hnew'⟩
      intro hx
      rcases mem_renameCol hx with h | h
      · exact hn.1 h
      · exact hnew (h ▸ List.mem_cons_self x xs)

/-- Invariant carried through the alias loop: the column list has no
duplicates and every column name is in `colset`. -/
def AliasInv (st : List String × List String) : Prop :=
  st.1.Nodup ∧ ∀ x ∈ st.1, x ∈ st.2

theorem aliasStep_inv {st : List String × List String}
    (h : AliasInv st) (e : String × List String) : AliasInv (aliasStep st e) := by
  unfold aliasStep
  by_cases hc : st.2.contains e.1
  · rw [if_pos hc]; exact h
  · rw [if_neg hc]
    cases hf : e.2.find? (fun c => st.2.contains c) with
    | none => exact h
    | some c =>
      have he1 : e.1 ∉ st.2 := by simpa using hc
      have he1' : e.1 ∉ st.1 := fun hx => he1 (h.2 _ hx)
      refine ⟨renameCol_nodup h.1 he1', ?_⟩
      intro x hx
      rcases mem_renameCol hx with hm | hm
      · exact List.mem_cons_of_mem _ (h.2 _ hm)
      · exact hm ▸ List.mem_cons_self _ _

theorem aliasStep_length (st : List String × List String) (e : String × List String) :
    (aliasStep st e).1.length = st.1.length := by
  unfold aliasStep
  by_cases hc : st.2.contains e.1
  · rw [if_pos hc]
  · rw [if_neg hc]
    cases hf : e.2.find? (fun c => st.2.contains c) with
    | none => rfl
    | some c => exact renameCol_length _ _ _

theorem aliasFold_inv (es : List (String × List String)) :
    ∀ st, AliasInv st → AliasInv (es.foldl aliasStep st) := by
  induction es with
  | nil => exact fun st h => h
  | cons e es ih => exact fun st h => (List.foldl_cons es st) ▸ ih _ (aliasStep_inv h e)

theorem aliasFold_length (es : List (String × List String)) :
    ∀ st, (es.foldl aliasStep st).1.length = st.1.length := by
  induction es with
  | nil => exact fun st => rfl
  | cons e es ih =>
    intro st
    rw [List.foldl_cons, ih, aliasStep_length]

theorem aliasResolveCols_nodup {cols : List String} (h : cols.Nodup) :
    (aliasResolveCols cols).Nodup := by
  unfold aliasResolveCols
  exact (aliasFold_inv ALIAS (cols, cols) ⟨h, fun _ hx => hx⟩).1

theorem aliasResolveCols_length (cols : List String) :
    (aliasResolveCols cols).length = cols.length := by
  unfold aliasResolveCols
  exact aliasFold_length ALIAS (cols, cols)

theorem aliasResolve_cols (df : Df) :
    (aliasResolve df).cols = aliasResolveCols df.cols := by
  simp only [aliasResolve]

theorem aliasResolve_rows (df : Df) : (aliasResolve df).rows = df.rows := by
  simp only [aliasResolve]

theorem backfillList_spec (ks : List String) :
    ∀ df : Df, df.cols.Nodup →
    ∃ ext : List String,
      (ks.foldl backfillStep df).cols = df.cols ++ ext ∧
      (ks.foldl backfillStep df).rows
        = df.rows.map (fun r => r ++ List.replicate ext.length "") ∧
      (ks.foldl backfillStep df).cols.Nodup ∧
      ∀ k ∈ ks, k ∈ (ks.foldl backfillStep df).cols := by
  induction ks with
  | nil =>
    intro df hn
    exact ⟨[], by simp, by simp, hn, by simp⟩
  | cons k ks ih =>
    intro df hn
    rw [List.foldl_cons]
    by_cases hc : df.cols.contains k
    · have hstep : backfillStep df k = df := by
        unfold backfillStep; rw [if_pos hc]
      rw [hstep]
      obtain ⟨ext, h1, h2, h3, h4⟩ := ih df hn
      refine ⟨ext, h1, h2, h3, ?_⟩
      intro kk hkk
      rcases List.mem_cons.mp hkk with he | hm
      · subst he
        rw [h1]
        exact List.mem_append_left _ (by simpa using hc)
      · exact h4 kk hm
    · have hkn : k ∉ df.cols := by simpa using hc
      have hstep : backfillStep df k
          = ⟨df.cols ++ [k], df.rows.map (fun r => r ++ [""])⟩ := by
        unfold backfillStep; rw [if_neg hc]
      rw [hstep]
      have hn' : (df.cols ++ [k]).Nodup := by
        rw [List.nodup_append]
        refine ⟨hn, List.nodup_singleton k, ?_⟩
        intro a ha hak
        exact hkn ((List.mem_singleton.mp hak) ▸ ha)
      obtain ⟨ext, h1, h2, h3, h4⟩ := ih ⟨df.cols ++ [k], df.rows.map (fun r => r ++ [""])⟩ hn'
      refine ⟨k :: ext, ?_, ?_, h3, ?_⟩
      · rw [h1, List.append_assoc]
        rfl
      · rw [h2, List.map_map]
        refine List.map_congr_left ?_
        intro r _
        show (r ++ [""]) ++ List.replicate ext.length "" = r ++ List.replicate (k :: ext).length ""
        rw [List.append_assoc]
        rw [show (k :: ext).length = ext.length + 1 from rfl, List.replicate_succ]
        rfl
      · intro kk hkk
        rcases List.mem_cons.mp hkk with he | hm
        · subst he
          rw [h1]
          exact List.mem_append_left _ (List.mem_append_right _ (List.mem_singleton.mpr rfl))
        · exact h4 kk hm

theorem rowGet_append {cols row : List String} (ext : List String)
    (hlen : row.length = cols.length) (k : String) :
    rowGet (cols ++ ext) (row ++ List.replicate ext.length "") k = rowGet cols row k := by
  unfold rowGet
  rw [List.zip_append hlen.symm, List.find?_append]
  cases hf : (cols.zip row).find? (fun p => p.1 == k) with
  | some p => rfl
  | none =>
    rw [Option.none_or]
    cases hg : (ext.zip (List.replicate ext.length "")).find? (fun p => p.1 == k) with
    | none => rfl
    | some q =>
      obtain ⟨q1, q2⟩ := q
      have hq2 : q2 ∈ List.replicate ext.length "" :=
        (List.of_mem_zip (List.mem_of_find?_eq_some hg)).2
      have : q2 = "" := List.eq_of_mem_replicate hq2
      subst this
      rfl

theorem filter_beq_nil_of_not_mem {k : String} {cols : List String} (h : k ∉ cols) :
    cols.filter (fun x => x == k) = [] := by
  rw [List.filter_eq_nil_iff]
  intro a ha hak
  exact h ((by simpa using hak : a = k) ▸ ha)

theorem filter_beq_singleton_of_nodup {cols : List String} {k : String}
    (hn : cols.Nodup) (hk : k ∈ cols) : cols.filter (fun x => x == k) = [k] := by
  induction cols with
  | nil => cases hk
  | cons c cs ih =>
    rw [List.nodup_cons] at hn
    rw [List.filter_cons]
    by_cases hck : (c == k) = true
    · have hceq : c = k := by simpa using hck
      subst hceq
      rw [if_pos hck, filter_beq_nil_of_not_mem hn.1]
    · have hne : c ≠ k := by simpa using hck
      rw [if_neg hck]
      refine ih hn.2 ?_
      rcases List.mem_cons.mp hk with he | hm
      · exact absurd he.symm hne
      · exact hm

theorem zipfilter_nil_of_not_mem {k : String} {cols row : List String} (h : k ∉ cols) :
    (cols.zip row).filter (fun p => p.1 == k) = [] := by
  rw [List.filter_eq_nil_iff]
  intro p hp hpk
  obtain ⟨p1, p2⟩ := p
  exact h ((by simpa using hpk : p1 = k) ▸ (List.of_mem_zip hp).1)

theorem rowGet_cons_of_ne {c v k : String} {cs vs : List String}
    (h : ¬ (c == k) = true) : rowGet (c :: cs) (v :: vs) k = rowGet cs vs k := by
  unfold rowGet
  rw [List.zip_cons_cons, List.find?_cons_of_neg _ (by simpa using h)]

theorem zipfilter_singleton {cols : List String} {k : String}
    (hn : cols.Nodup) (hk : k ∈ cols) :
    ∀ row : List String, row.length = cols.length →
      ((cols.zip row).filter (fun p => p.1 == k)).map Prod.snd = [rowGet cols row k] := by
  induction cols with
  | nil => cases hk
  | cons c cs ih =>
    intro row hlen
    cases row with
    | nil => simp at hlen
    | cons v vs =>
      rw [List.nodup_cons] at hn
      have hlen' : vs.length = cs.length := by simpa using hlen
      rw [List.zip_cons_cons, List.filter_cons]
      by_cases hck : ((c, v).1 == k) = true
      · have hceq : c = k := by simpa using hck
        rw [if_pos hck]
        subst hceq
        rw [zipfilter_nil_of_not_mem hn.1]
        unfold rowGet
        rw [List.zip_cons_cons, List.find?_cons_of_pos _ (by simp)]
        rfl
      · have hne : c ≠ k := by simpa using hck
        rw [if_neg hck, rowGet_cons_of_ne hck]
        refine ih hn.2 ?_ vs hlen'
        rcases List.mem_cons.mp hk with he | hm
        · exact absurd he.symm hne
        · exact hm

theorem flatMap_eq_map {α β : Type} (f : α → List β) (g : α → β) (l : List α)
    (h : ∀ a ∈ l, f a = [g a]) : l.flatMap f = l.map g := by
  induction l with
  | nil => rfl
  | cons x xs ih =>
    rw [List.flatMap_cons, h x (List.mem_cons_self _ _), List.map_cons,
      ih (fun a ha => h a (List.mem_cons_of_mem _ ha))]
    rfl

theorem selectCols_cols (names : List String) (df : Df)
    (hn : df.cols.Nodup) (hmem : ∀ n ∈ names, n ∈ df.cols) :
    (selectCols df names).cols = names := by
  show names.flatMap (fun r => df.cols.filter (fun x => x == r)) = names
  rw [flatMap_eq_map (fun r => df.cols.filter (fun x => x == r)) (fun a => a) names
    (fun a ha => filter_beq_singleton_of_nodup hn (hmem a ha)), List.map_id']

theorem selectCols_rows (names : List String) (df : Df)
    (hn : df.cols.Nodup) (hmem : ∀ n ∈ names, n ∈ df.cols)
    (hlen : ∀ r ∈ df.rows, r.length = df.cols.length) :
    (selectCols df names).rows
      = df.rows.map (fun row => names.map (fun k => rowGet df.cols row k)) := by
  show df.rows.map _ = _
  refine List.map_congr_left ?_
  intro r hr
  exact flatMap_eq_map _ _ names
    (fun k hk => zipfilter_singleton hn (hmem k hk) r (hlen r hr))

theorem aliasResolve_cleanHeader (df : Df) : aliasResolve (cleanHeader df)
    = ⟨aliasResolveCols (df.cols.map cleanStr), df.rows⟩ := by
  simp only [aliasResolve, cleanHeader]

theorem normalize_columns_as_fold (df : Df) : normalize_columns df
    = selectCols
        (REQUIRED.foldl backfillStep ⟨aliasResolveCols (df.cols.map cleanStr), df.rows⟩)
        REQUIRED := by
  unfold normalize_columns backfill
  rw [aliasResolve_cleanHeader]

/-- Claim C3, counterexample: the resolver does not always produce
exactly nine columns.  When two input columns bear the same canonical
name, the final `df[REQUIRED]` selection returns both, so the output
has ten columns. -/
theorem C3_nine_columns_counterexample :
    (normalize_columns ⟨["問題文", "問題文"], [["q1", "q2"]]⟩).cols ≠ REQUIRED
    ∧ (normalize_columns ⟨["問題文", "問題文"], [["q1", "q2"]]⟩).cols.length = 10 := by
  decide

/-- Characterization of `normalize_columns` on tables whose cleaned
column names are pairwise distinct: the output columns are exactly
`REQUIRED`, and each output cell is the looked-up value of its
canonical field among the alias-resolved input columns (so `""` for a
back-filled absent field). -/
theorem resolver_characterization (df : Df)
    (hn : (df.cols.map cleanStr).Nodup)
    (hlen : ∀ r ∈ df.rows, r.length = df.cols.length) :
    (normalize_columns df).cols = REQUIRED ∧
    (normalize_columns df).rows
      = df.rows.map (fun row =>
          REQUIRED.map (fun k =>
            rowGet (aliasResolveCols (df.cols.map cleanStr)) row k)) := by
  have hnorm := normalize_columns_as_fold df
  have hrn0 := aliasResolveCols_nodup hn
  have hrlen0 : (aliasResolveCols (df.cols.map cleanStr)).length = df.cols.length := by
    rw [aliasResolveCols_length, List.length_map]
  generalize hrc : aliasResolveCols (df.cols.map cleanStr) = rc at hnorm hrn0 hrlen0 ⊢
  obtain ⟨ext, h1, h2, h3, h4⟩ := backfillList_spec REQUIRED ⟨rc, df.rows⟩ hrn0
  rw [show (⟨rc, df.rows⟩ : Df).rows = df.rows from rfl] at h2
  rw [show (⟨rc, df.rows⟩ : Df).cols = rc from rfl] at h1
  have hlenB : ∀ r ∈ (REQUIRED.foldl backfillStep ⟨rc, df.rows⟩).rows,
      r.length = (REQUIRED.foldl backfillStep ⟨rc, df.rows⟩).cols.length := by
    intro r hr
    rw [h2] at hr
    obtain ⟨r0, hr0, hre⟩ := List.mem_map.mp hr
    rw [← hre, h1, List.length_append, List.length_append, List.length_replicate,
      hlen r0 hr0, ← hrlen0]
  constructor
  · rw [hnorm]
    exact selectCols_cols REQUIRED _ h3 h4
  · rw [hnorm, selectCols_rows REQUIRED _ h3 h4 hlenB, h2, List.map_map]
    refine List.map_congr_left ?_
    intro r hr
    show REQUIRED.map (fun k =>
        rowGet (REQUIRED.foldl backfillStep ⟨rc, df.rows⟩).cols
          (r ++ List.replicate ext.length "") k)
      = REQUIRED.map (fun k => rowGet rc r k)
    refine List.map_congr_left ?_
    intro k _
    rw [h1]
    exact rowGet_append ext (by rw [hlen r hr, ← hrlen0]) k

/-- Claim C3, amended: for every input table whose cleaned column
names are pairwise distinct (and whose rows match the header width),
the resolver's output has exactly the nine canonical fields, no more,
no fewer, in the fixed canonical order; each output cell is the
looked-up value of its canonical field among the alias-resolved input
columns, with `""` (the back-fill) when the field is absent, and all
other original columns are dropped.  Tables with duplicate-normalizing
columns instead keep every duplicate (see the counterexample). -/
theorem C3_resolver_totality (df : Df)
    (hn : (df.cols.map cleanStr).Nodup)
    (hlen : ∀ r ∈ df.rows, r.length = df.cols.length) :
    (normalize_columns df).cols = REQUIRED ∧
    (normalize_columns df).rows
      = df.rows.map (fun row =>
          REQUIRED.map (fun k =>
            rowGet (aliasResolveCols (df.cols.map cleanStr)) row k)) :=
  resolver_characterization df hn hlen

/-- Claim C3, witness: the amended theorem applied to a concrete table
holding one aliased column and one irrelevant column. -/
theorem C3_resolver_totality_witness :
    (normalize_columns ⟨["設問", "junk"], [["q", "z"]]⟩).cols = REQUIRED ∧
    (normalize_columns ⟨["設問", "junk"], [["q", "z"]]⟩).rows
      = (Df.mk ["設問", "junk"] [["q", "z"]]).rows.map (fun row =>
          REQUIRED.map (fun k =>
            rowGet (aliasResolveCols ((Df.mk ["設問", "junk"] [["q", "z"]]).cols.map cleanStr))
              row k)) :=
  C3_resolver_totality _ (by decide) (by decide)

/-- Claim C4, counterexample: with two input columns both named
問題文 and row values q1, q2, last-write-wins would make the resolver
return the nine-column table whose question field is "q2"; the code
does not. -/
theorem C4_last_write_wins_counterexample :
    normalize_columns ⟨["問題文", "問題文"], [["q1", "q2"]]⟩
      ≠ ⟨REQUIRED, [["q2", "", "", "", "", "", "", "", ""]]⟩ := by
  decide

/-- Claim C4, amended: duplicate columns normalizing to the same
canonical name are not collapsed by overwriting; the selection keeps
every duplicate in original order with both values preserved, as shown
on the two-問題文 table. -/
theorem C4_duplicates_kept :
    normalize_columns ⟨["問題文", "問題文"], [["q1", "q2"]]⟩
      = ⟨["問題文", "問題文", "選択肢1", "選択肢2", "選択肢3", "選択肢4", "選択肢5",
          "正解", "科目分類", "リンクURL"],
         [["q1", "q2", "", "", "", "", "", "", "", ""]]⟩ := by
  decide

/-- Every declared alias, as the sole column of a table, is renamed to
its canonical field by the alias loop. -/
theorem alias_resolves_to_canon :
    ∀ e ∈ ALIAS, ∀ a ∈ e.2, aliasResolveCols [cleanStr a] = [e.1] := by
  decide

/-- No declared alias coincides with a canonical column name. -/
theorem alias_not_canonical : ∀ e ∈ ALIAS, ∀ a ∈ e.2, a ∉ REQUIRED := by
  decide

/-- Looking up `k` in a row built by mapping `f` over the (duplicate-free)
column list returns `f k`. -/
theorem rowGet_map_self {cols : List String} {k : String} (f : String → String)
    (hn : cols.Nodup) (hk : k ∈ cols) :
    rowGet cols (cols.map f) k = f k := by
  induction cols with
  | nil => cases hk
  | cons c cs ih =>
    rw [List.nodup_cons] at hn
    by_cases hck : (c == k) = true
    · have hceq : c = k := by simpa using hck
      subst hceq
      unfold rowGet
      rw [List.map_cons, List.zip_cons_cons, List.find?_cons_of_pos _ (by simp)]
    · rw [List.map_cons, rowGet_cons_of_ne hck]
      refine ih hn.2 ?_
      rcases List.mem_cons.mp hk with he | hm
      · exact absurd he.symm (by simpa using hck)
      · exact hm

/-- Claim C6: for every canonical field and every declared alias of
it, resolving a table headed by that alias yields `REQUIRED` as the
columns, the canonical field of the resulting record holds the aliased
column's value, and the alias name is absent from the output columns. -/
theorem C6_alias_round_trip : ∀ e ∈ ALIAS, ∀ a ∈ e.2, ∀ v : String,
    (normalize_columns ⟨[a], [[v]]⟩).cols = REQUIRED ∧
    rowGet REQUIRED ((normalize_columns ⟨[a], [[v]]⟩).rows.headD []) e.1 = v ∧
    a ∉ (normalize_columns ⟨[a], [[v]]⟩).cols := by
  intro e he a ha v
  have hnod : ((⟨[a], [[v]]⟩ : Df).cols.map cleanStr).Nodup := List.nodup_singleton _
  have hlen : ∀ r ∈ (⟨[a], [[v]]⟩ : Df).rows, r.length = (⟨[a], [[v]]⟩ : Df).cols.length := by
    intro r hr
    rw [List.mem_singleton.mp hr]
    rfl
  obtain ⟨hcols, hrows⟩ := resolver_characterization ⟨[a], [[v]]⟩ hnod hlen
  rw [show (⟨[a], [[v]]⟩ : Df).rows = [[v]] from rfl] at hrows
  rw [show (⟨[a], [[v]]⟩ : Df).cols.map cleanStr = [cleanStr a] from rfl] at hrows
  rw [alias_resolves_to_canon e he a ha] at hrows
  refine ⟨hcols, ?_, ?_⟩
  · rw [hrows]
    rw [show ([[v]].map (fun row => REQUIRED.map (fun k => rowGet [e.1] row k))).headD []
        = REQUIRED.map (fun k => rowGet [e.1] [v] k) from rfl]
    have hreq : e.1 ∈ REQUIRED := by
      have hall : ∀ x ∈ ALIAS, x.1 ∈ REQUIRED := by decide
      exact hall e he
    rw [rowGet_map_self (fun k => rowGet [e.1] [v] k) (by decide) hreq]
    unfold rowGet
    rw [List.zip_cons_cons, List.find?_cons_of_pos _ (by simp)]
  · rw [hcols]
    exact alias_not_canonical e he a ha

/-- Claim C6, witness: the round trip at the 設問 alias of 問題文 with
value "hello". -/
theorem C6_alias_round_trip_witness :
    (normalize_columns ⟨["設問"], [["hello"]]⟩).cols = REQUIRED ∧
    rowGet REQUIRED ((normalize_columns ⟨["設問"], [["hello"]]⟩).rows.headD []) "問題文"
      = "hello" ∧
    "設問" ∉ (normalize_columns ⟨["設問"], [["hello"]]⟩).cols :=
  C6_alias_round_trip ("問題文", ["設問", "問題", "本文"]) (by decide) "設問" (by decide) "hello"

/-!
## Converter and formatter lemmas
-/

/-- Unrolling the accumulator loop of `convert_df`. -/
theorem convert_foldl (cols : List String) (numbering : String) (al am : Bool) :
    ∀ (rows : List (List String)) (acc1 acc2 : List String),
      rows.foldl
        (fun (acc : List String × List String) row =>
          let p := make_front_back cols row numbering al am
          (acc.1 ++ [p.1], acc.2 ++ [p.2]))
        (acc1, acc2)
        = (acc1 ++ rows.map (fun r => (make_front_back cols r numbering al am).1),
           acc2 ++ rows.map (fun r => (make_front_back cols r numbering al am).2)) := by
  intro rows
  induction rows with
  | nil => intro acc1 acc2; simp
  | cons r rs ih =>
    intro acc1 acc2
    rw [List.foldl_cons]
    show List.foldl _
        (acc1 ++ [(make_front_back cols r numbering al am).1],
         acc2 ++ [(make_front_back cols r numbering al am).2]) rs = _
    rw [ih]
    simp [List.append_assoc]

/-- Claim C7: `convert_df` applies the formatter to each record in
input order and returns exactly one (Front, Back) row per input row,
preserving order and count; an empty table gives an empty output. -/
theorem C7_row_preservation (df : Df) (numbering : String) (al am : Bool) :
    (convert_df df numbering al am).cols = ["Front", "Back"] ∧
    (convert_df df numbering al am).rows
      = df.rows.map (fun r => [(make_front_back df.cols r numbering al am).1,
                               (make_front_back df.cols r numbering al am).2]) ∧
    (convert_df df numbering al am).rows.length = df.rows.length := by
  have hrows : (convert_df df numbering al am).rows
      = df.rows.map (fun r => [(make_front_back df.cols r numbering al am).1,
                               (make_front_back df.cols r numbering al am).2]) := by
    simp only [convert_df]
    rw [convert_foldl]
    simp [List.zip_map', List.map_map, Function.comp]
  exact ⟨rfl, hrows, by rw [hrows, List.length_map]⟩

/-- The label table always has five entries, whatever the numbering
option. -/
theorem labelsFor_length (numbering : String) : (labelsFor numbering).length = 5 := by
  unfold labelsFor
  by_cases h : numbering = "ABC"
  · rw [if_pos h]
    rfl
  · rw [if_neg h]
    rfl

/-- `mapM` over `Except` succeeds pointwise. -/
theorem mapM_ok {α β : Type} (f : α → Except String β) (g : α → β) :
    ∀ l : List α, (∀ a ∈ l, f a = Except.ok (g a)) → l.mapM f = Except.ok (l.map g) := by
  intro l
  induction l with
  | nil => intro _; rfl
  | cons a l ih =>
    intro h
    rw [List.mapM_cons, h a (List.mem_cons_self _ _),
      ih (fun x hx => h x (List.mem_cons_of_mem _ hx))]
    rfl

/-- The fallible choice-line builder succeeds whenever every surviving
index is within the label table. -/
theorem choiceLinesE_ok (choices labels : List String)
    (hb : ∀ p ∈ choices.enum.filter (fun p => p.2 != ""), p.1 < labels.length) :
    choiceLinesE choices labels = Except.ok (choiceLines choices labels) := by
  unfold choiceLinesE choiceLines
  refine mapM_ok _ _ _ ?_
  intro p hp
  have hlt := hb p hp
  rw [List.get?_eq_get hlt]
  rw [show labels.getD p.1 "" = labels.get ⟨p.1, hlt⟩ from by
    rw [List.getD_eq_get?, List.get?_eq_get hlt]
    rfl]

/-- Claim C8: the formatter is total — the `labels[i]` indexing is
always in bounds, so the fallible variant never raises and agrees with
the total function on every row and option set (and `_clean` maps the
null value to `""` by its first defining equation). -/
theorem C8_formatter_total (cols vals : List String) (numbering : String) (al am : Bool) :
    makeFrontBackE cols vals numbering al am
      = Except.ok (make_front_back cols vals numbering al am) := by
  simp only [makeFrontBackE, make_front_back]
  rw [choiceLinesE_ok _ _ (fun p hp => by
    rw [labelsFor_length]
    exact List.fst_lt_of_mem_enum (List.mem_of_mem_filter hp))]

/-- Claim C9: the letters branch is taken exactly when the numbering
option equals "ABC"; every other numbering value, not only "123",
produces the digit labels. -/
theorem C9_digit_labels_default :
    (∀ numbering : String, numbering ≠ "ABC" →
      labelsFor numbering = ["1", "2", "3", "4", "5"]) ∧
    (∀ numbering : String,
      labelsFor numbering = ["A", "B", "C", "D", "E"] ↔ numbering = "ABC") := by
  constructor
  · intro n h
    unfold labelsFor
    rw [if_neg h]
  · intro n
    constructor
    · intro h
      by_contra hne
      unfold labelsFor at h
      rw [if_neg hne] at h
      exact absurd h (by decide)
    · intro h
      subst h
      unfold labelsFor
      rw [if_pos rfl]

/-- Claim C9, witness: instantiated at the two concrete option values. -/
theorem C9_digit_labels_default_witness :
    labelsFor "123" = ["1", "2", "3", "4", "5"]
    ∧ labelsFor "ABC" = ["A", "B", "C", "D", "E"] :=
  ⟨C9_digit_labels_default.1 "123" (by decide),
   (C9_digit_labels_default.2 "ABC").mpr rfl⟩

/-- A string with an embedded newline is never empty. -/
theorem string_append_triple_ne_empty (a b : String) : a ++ "\n" ++ b ≠ "" := by
  intro h
  have hd := congrArg String.data h
  rw [String.data_append, String.data_append] at hd
  rw [show ("\n" : String).data = ['\n'] from rfl] at hd
  simp [List.append_eq_nil] at hd

/-- Claim C10: with metadata on and both normalized subject and link
non-empty, Back is always the label-or-bare answer, a blank line, the
subject line, a newline, then the link line — subject first, link
second — for every record and option set. -/
theorem C10_metadata_order (q c1 c2 c3 c4 c5 ans subj link : String)
    (numbering : String) (al : Bool)
    (hs : _clean (some subj) ≠ "") (hl : _clean (some link) ≠ "") :
    (make_front_back REQUIRED [q, c1, c2, c3, c4, c5, ans, subj, link] numbering al true).2
      = (if al then "正解: " ++ _clean (some ans) else _clean (some ans))
        ++ "\n\n" ++ (_clean (some subj) ++ "\n" ++ _clean (some link)) := by
  have hsubj : rowGet REQUIRED [q, c1, c2, c3, c4, c5, ans, subj, link] "科目分類" = subj := rfl
  have hlink : rowGet REQUIRED [q, c1, c2, c3, c4, c5, ans, subj, link] "リンクURL" = link := rfl
  have hans : rowGet REQUIRED [q, c1, c2, c3, c4, c5, ans, subj, link] "正解" = ans := rfl
  have hs' : (_clean (some subj) != "") = true := by simpa using hs
  have hl' : (_clean (some link) != "") = true := by simpa using hl
  simp only [make_front_back, hsubj, hlink, hans]
  rw [List.filter_cons, if_pos hs', List.filter_cons, if_pos hl']
  rw [show List.filter (fun s => s != "") [] = [] from rfl]
  rw [show pyJoin "\n" [_clean (some subj), _clean (some link)]
      = _clean (some subj) ++ "\n" ++ _clean (some link) from rfl]
  rw [if_pos trivial]
  rw [if_neg (string_append_triple_ne_empty _ _)]

/-- Claim C10, witness: the metadata block at a concrete record with
subject "Math" and link "http", answer label on, digit numbering. -/
theorem C10_metadata_order_witness :
    (make_front_back REQUIRED ["q", "", "", "", "", "", "a", "Math", "http"] "123" true true).2
      = (if true then "正解: " ++ _clean (some "a") else _clean (some "a"))
        ++ "\n\n" ++ (_clean (some "Math") ++ "\n" ++ _clean (some "http")) :=
  C10_metadata_order "q" "" "" "" "" "" "a" "Math" "http" "123" true (by decide) (by decide)
